import Mathlib

/-!
Verification of the report-ingestion and AI-response parsing pipeline of
the ScienceLabAssistant application (`app.py`).

The pipeline is shallowly embedded over `List Char`:

* `score` embeds the score-extraction line
  `re.search(r"Completeness Score:\s*(\d+)/10", result, re.IGNORECASE)`
  followed by `int(score_match.group(1)) if score_match else None`
  (app.py lines 489-490).  The regex pattern contains no backtracking
  ambiguity (whitespace, digits and the literal `/` are disjoint
  character classes), so the leftmost match is computed by a
  deterministic maximal-munch scan over the case-lowered text.
* `sections` / `step` embed the line-by-line section-splitting scan
  (app.py lines 533-551).
* `parse` packages score, the three section lists and the retained raw
  response into an `AnalysisResult` (the structured value the
  presentation layer renders, plus the raw blob shown in the
  "View Full AI Analysis" expander, app.py lines 569-570).
* `extractPdf` embeds the PDF branch (app.py lines 400-407); the
  external per-page call `page.extract_text()` is modelled as either
  raising (page-level failure) or returning a possibly empty text.
* `query_ai` embeds the AI client (app.py lines 172-209).
* `analyzerAICalls` embeds the gating of the Lab Report Analyzer
  section (app.py lines 445-598): which AI calls a user action issues.
-/

set_option autoImplicit false

namespace SLA

/-- ASCII whitespace class of Python's regex `\s` and of `str.strip` /
`str.split` on ASCII text: space, tab, newline, carriage return,
form feed, vertical tab. -/
def isWS (c : Char) : Bool :=
  c == ' ' || c == '\t' || c == '\n' || c == '\r' || c == '\x0c' || c == '\x0b'

/-- Embeds Python `str.strip()` (both ends, whitespace). -/
def pyStrip (l : List Char) : List Char :=
  ((l.dropWhile isWS).reverse.dropWhile isWS).reverse

/-- Truthiness of `line.strip()` in the source: the line has at least one
non-whitespace character. -/
def nonBlank (l : List Char) : Bool :=
  !(pyStrip l).isEmpty

/-- Embeds Python `result.split('\n')`: split at every newline, keeping
empty parts (so the empty string yields one empty part). -/
def splitLines : List Char → List (List Char)
  | [] => [[]]
  | c :: rest =>
    if c = '\n' then [] :: splitLines rest
    else
      match splitLines rest with
      | [] => [[c]]
      | l :: ls => (c :: l) :: ls

/-- Joins lines with single newline separators; left inverse of
`splitLines` for newline-free lines. -/
def joinLines : List (List Char) → List Char
  | [] => []
  | [l] => l
  | l :: l2 :: ls => l ++ '\n' :: joinLines (l2 :: ls)

/-- Embeds Python substring containment `pat in w`. -/
def containsSub (pat : List Char) : List Char → Bool
  | [] => pat.isEmpty
  | c :: t => pat.isPrefixOf (c :: t) || containsSub pat t

/-- The case-lowered literal part of the score regex. -/
def lit : List Char := "completeness score:".toList

/-- The literal tail of the score regex. -/
def slash10 : List Char := "/10".toList

/-- Digit run to numeric value, as `int()` on an ASCII digit string. -/
def digitsToNat (ds : List Char) : Nat :=
  ds.foldl (fun n c => 10 * n + (c.toNat - 48)) 0

/-- Attempt to match `completeness score:\s*(\d+)/10` at the head of the
(case-lowered) text; returns the digit group's value on success.  This is
the unique match the regex engine can produce at this position because
whitespace, digits and `/` are disjoint. -/
def tryMatch (s : List Char) : Option Nat :=
  if lit.isPrefixOf s then
    let r := (s.drop lit.length).dropWhile isWS
    let ds := r.takeWhile Char.isDigit
    if ds.isEmpty then none
    else if slash10.isPrefixOf (r.drop ds.length) then some (digitsToNat ds)
    else none
  else none

/-- Leftmost-match scan: try `tryMatch` at every position, left to right,
as `re.search` does. -/
def go : List Char → Option Nat
  | [] => none
  | c :: t =>
    match tryMatch (c :: t) with
    | some n => some n
    | none => go t

/-- Embeds app.py lines 489-490: `score_match = re.search(r"Completeness
Score:\s*(\d+)/10", result, re.IGNORECASE)` and `score =
int(score_match.group(1)) if score_match else None`.  Case-insensitivity
is realised by lowering the text and matching the lowered literal. -/
def score (result : List Char) : Option Nat :=
  go (result.map Char.toLower)

/-- The three recognized section names (keys of the `sections` dict). -/
inductive SecName where
  | ms
  | it
  | df
deriving DecidableEq

/-- Heading pattern for "Missing Sections". -/
def msHead : List Char := "### Missing Sections:".toList

/-- Heading pattern for "Improvement Tips". -/
def itHead : List Char := "### Improvement Tips:".toList

/-- Heading pattern for "Detailed Feedback". -/
def dfHead : List Char := "### Detailed Feedback:".toList

/-- Which heading (if any) a line triggers, in the source's `elif`
order (app.py lines 541-549). -/
def headingOf (line : List Char) : Option SecName :=
  if containsSub msHead line then some .ms
  else if containsSub itHead line then some .it
  else if containsSub dfHead line then some .df
  else none

/-- State of the section-splitting scan: the `current_section` cursor and
the `sections` dict (each value `None` until its heading is seen). -/
structure ScanSt where
  current_section : Option SecName
  ms : Option (List (List Char))
  it : Option (List (List Char))
  df : Option (List (List Char))
deriving DecidableEq

/-- Initial scan state: `current_section = None`, all dict values `None`
(app.py lines 533-539). -/
def initSt : ScanSt := ⟨none, none, none, none⟩

/-- Field lookup `sections[name]`. -/
def getSec (st : ScanSt) : SecName → Option (List (List Char))
  | .ms => st.ms
  | .it => st.it
  | .df => st.df

/-- One iteration of the scan loop (app.py lines 540-551): a heading line
sets the cursor and resets that section to a fresh empty list; otherwise
a non-blank line is appended to the current section if a cursor is set.
When a cursor is set, the corresponding dict value is a list (invariant
`cursor_getSec_isSome`), so the `getD []` default never fires. -/
def step (st : ScanSt) (line : List Char) : ScanSt :=
  match headingOf line with
  | some .ms => { st with current_section := some .ms, ms := some [] }
  | some .it => { st with current_section := some .it, it := some [] }
  | some .df => { st with current_section := some .df, df := some [] }
  | none =>
    if nonBlank line then
      match st.current_section with
      | some .ms => { st with ms := some (st.ms.getD [] ++ [line]) }
      | some .it => { st with it := some (st.it.getD [] ++ [line]) }
      | some .df => { st with df := some (st.df.getD [] ++ [line]) }
      | none => st
    else st

/-- Run the scan over a list of lines from a given state. -/
def feed (st : ScanSt) (ls : List (List Char)) : ScanSt :=
  ls.foldl step st

/-- Embeds the whole section-splitting block: scan the lines of the raw
response (app.py lines 533-551). -/
def sections (result : List Char) : ScanSt :=
  feed initSt (splitLines result)

/-- The structured analysis value handed to the presentation layer:
optional score, the three optional section line-lists, and the untouched
raw response (always retained; shown in the expander at app.py 569-570). -/
structure AnalysisResult where
  score : Option Nat
  missingSections : Option (List (List Char))
  improvementTips : Option (List (List Char))
  detailedFeedback : Option (List (List Char))
  raw : List Char
deriving DecidableEq

/-- The response-parsing stage: score extraction plus section splitting
(app.py lines 489-551), never failing. -/
def parse (result : List Char) : AnalysisResult :=
  { score := score result
    missingSections := (sections result).ms
    improvementTips := (sections result).it
    detailedFeedback := (sections result).df
    raw := result }

/-! ### Characterisation of the leftmost-match score scan -/

theorem tryMatch_nil : tryMatch [] = none := rfl

theorem go_eq_none_iff (w : List Char) :
    go w = none ↔ ∀ i, tryMatch (w.drop i) = none := by
  induction w with
  | nil =>
    simp [go, List.drop_nil, tryMatch_nil]
  | cons c t ih =>
    constructor
    · intro h i
      cases i with
      | zero =>
        simp only [go] at h
        cases hm : tryMatch (c :: t) with
        | none => simpa using hm
        | some n => rw [hm] at h; exact absurd h (by simp)
      | succ j =>
        simp only [go] at h
        cases hm : tryMatch (c :: t) with
        | none =>
          rw [hm] at h
          exact (ih.mp h) j
        | some n => rw [hm] at h; exact absurd h (by simp)
    · intro h
      have h0 := h 0
      simp only [List.drop_zero] at h0
      simp only [go, h0]
      exact ih.mpr (fun i => h (i + 1))

theorem go_eq_some (w : List Char) (n : Nat) (h : go w = some n) :
    ∃ i, tryMatch (w.drop i) = some n ∧ ∀ j, j < i → tryMatch (w.drop j) = none := by
  induction w with
  | nil => simp [go] at h
  | cons c t ih =>
    simp only [go] at h
    cases hm : tryMatch (c :: t) with
    | some m =>
      rw [hm] at h
      refine ⟨0, ?_, ?_⟩
      · simpa [hm] using h
      · intro j hj; omega
    | none =>
      rw [hm] at h
      obtain ⟨i, hi, hleast⟩ := ih h
      refine ⟨i + 1, by simpa using hi, ?_⟩
      intro j hj
      cases j with
      | zero => simpa using hm
      | succ k => exact hleast k (by omega)

/-- C4: score extraction performs a case-insensitive leftmost search for
the `Completeness Score: <digits>/10` pattern: it depends only on the
case-lowered text, yields `none` exactly when no position matches, and
otherwise returns the digit group of the first (leftmost) match — never a
crash and never a default of `0`. -/
theorem claimC4 (cs : List Char) :
    (score cs = none ↔ ∀ i, tryMatch ((cs.map Char.toLower).drop i) = none)
    ∧ (∀ n, score cs = some n →
        ∃ i, tryMatch ((cs.map Char.toLower).drop i) = some n
          ∧ ∀ j, j < i → tryMatch ((cs.map Char.toLower).drop j) = none)
    ∧ (∀ cs2 : List Char, cs2.map Char.toLower = cs.map Char.toLower →
        score cs2 = score cs) := by
  refine ⟨go_eq_none_iff _, ?_, ?_⟩
  · intro n h
    exact go_eq_some _ n h
  · intro cs2 h
    simp only [score, h]

/-- Witness for C4 at a concrete response: the first match of the lowered
text of `"Completeness Score: 7/10"` yields 7. -/
theorem claimC4_witness :
    ∃ i, tryMatch ((("Completeness Score: 7/10".toList).map Char.toLower).drop i) = some 7
      ∧ ∀ j, j < i →
          tryMatch ((("Completeness Score: 7/10".toList).map Char.toLower).drop j) = none :=
  (claimC4 ("Completeness Score: 7/10".toList)).2.1 7 (by decide)

/-- C10 counterexample: the raw response `"### Completeness Score: 0/10"`
parses to a present score of `0`, which is outside the claimed 1-10
range, so the claimed data-model invariant fails on the code. -/
theorem claimC10_counterexample :
    (parse "### Completeness Score: 0/10".toList).score = some 0
      ∧ ¬(1 ≤ 0 ∧ 0 ≤ 10) := by
  constructor
  · decide
  · omega

/-- C10 amended: a present `completenessScore` is the digit group of the
first match of the case-insensitive `Completeness Score: <digits>/10`
search; the code does not enforce the 1-10 range (values such as 0 or 11
can occur). -/
theorem claimC10_amended (raw : List Char) (n : Nat)
    (h : (parse raw).score = some n) :
    ∃ i, tryMatch ((raw.map Char.toLower).drop i) = some n := by
  obtain ⟨i, hi, -⟩ := go_eq_some _ n h
  exact ⟨i, hi⟩

/-- Witness for the amended C10 at the concrete out-of-range response. -/
theorem claimC10_amended_witness :
    ∃ i, tryMatch ((("### Completeness Score: 0/10".toList).map Char.toLower).drop i)
      = some 0 :=
  claimC10_amended ("### Completeness Score: 0/10".toList) 0 (by decide)

/-! ### Lemmas about the section-splitting scan -/

theorem feed_nil (st : ScanSt) : feed st [] = st := rfl

theorem feed_cons (st : ScanSt) (l : List Char) (ls : List (List Char)) :
    feed st (l :: ls) = feed (step st l) ls := rfl

theorem feed_append (st : ScanSt) (ls1 ls2 : List (List Char)) :
    feed st (ls1 ++ ls2) = feed (feed st ls1) ls2 :=
  List.foldl_append ..

/-- Before any heading is seen, every line (blank or not) leaves the
initial state untouched: the cursor is unset found nothing to append to. -/
theorem step_initSt_of_no_heading (l : List Char) (h : headingOf l = none) :
    step initSt l = initSt := by
  simp only [step, h]
  by_cases hb : nonBlank l = true
  · simp [hb, initSt]
  · simp [Bool.not_eq_true] at hb
    simp [hb]

theorem feed_initSt_of_no_heading (ls : List (List Char))
    (h : ∀ l ∈ ls, headingOf l = none) :
    feed initSt ls = initSt := by
  induction ls with
  | nil => rfl
  | cons l t ih =>
    rw [feed_cons, step_initSt_of_no_heading l (h l (by simp))]
    exact ih (fun x hx => h x (by simp [hx]))

/-- A heading line sets the cursor to its section and resets that
section's list to a fresh empty list, whatever the incoming state. -/
theorem step_heading (st : ScanSt) (l : List Char) (s : SecName)
    (h : headingOf l = some s) :
    (step st l).current_section = some s ∧ getSec (step st l) s = some [] := by
  cases s <;> simp [step, h, getSec]

/-- One step of the scan: the cursor, and any one section's list, evolve
as a function of the incoming cursor and that section's list only — not
of the other sections. -/
theorem step_congr : ∀ (s : SecName) (l : List Char) (st1 st2 : ScanSt),
    st1.current_section = st2.current_section →
    getSec st1 s = getSec st2 s →
    (step st1 l).current_section = (step st2 l).current_section
      ∧ getSec (step st1 l) s = getSec (step st2 l) s := by
  rintro s l ⟨c1, m1, i1, d1⟩ ⟨c2, m2, i2, d2⟩ hc hs
  obtain rfl : c1 = c2 := hc
  cases hh : headingOf l with
  | some u =>
    cases u <;> cases s <;> simp_all [step, getSec]
  | none =>
    by_cases hb : nonBlank l = true
    · cases c1 with
      | none => simp_all [step, getSec]
      | some u => cases u <;> cases s <;> simp_all [step, getSec]
    · simp only [Bool.not_eq_true] at hb
      cases s <;> simp_all [step, getSec]

/-- The evolution of the cursor, and of any one section's list, depends
only on the incoming cursor and that section's list.  This is what makes
"only the last heading occurrence counts" true. -/
theorem feed_sec_congr (s : SecName) (ls : List (List Char)) :
    ∀ st1 st2 : ScanSt, st1.current_section = st2.current_section →
      getSec st1 s = getSec st2 s →
      (feed st1 ls).current_section = (feed st2 ls).current_section
        ∧ getSec (feed st1 ls) s = getSec (feed st2 ls) s := by
  induction ls with
  | nil => intro st1 st2 hc hs; exact ⟨hc, hs⟩
  | cons l t ih =>
    intro st1 st2 hc hs
    rw [feed_cons, feed_cons]
    obtain ⟨hc2, hs2⟩ := step_congr s l st1 st2 hc hs
    exact ih (step st1 l) (step st2 l) hc2 hs2

/-- One step of the scan never stores a blank line. -/
theorem step_nonBlank : ∀ (st : ScanSt) (l : List Char),
    (∀ s x, x ∈ (getSec st s).getD [] → nonBlank x = true) →
    ∀ s x, x ∈ (getSec (step st l) s).getD [] → nonBlank x = true := by
  rintro ⟨c, m, i, d⟩ l h s x hx
  have hm : ∀ y, y ∈ m.getD [] → nonBlank y = true := fun y hy => h .ms y hy
  have hi : ∀ y, y ∈ i.getD [] → nonBlank y = true := fun y hy => h .it y hy
  have hd : ∀ y, y ∈ d.getD [] → nonBlank y = true := fun y hy => h .df y hy
  cases hh : headingOf l with
  | some u =>
    simp only [step, hh] at hx
    cases u <;> cases s <;>
      first
        | exact absurd hx (List.not_mem_nil x)
        | exact hm x hx
        | exact hi x hx
        | exact hd x hx
  | none =>
    simp only [step, hh] at hx
    by_cases hb : nonBlank l = true
    · simp only [hb, if_true] at hx
      cases c with
      | none =>
        cases s <;>
          first
            | exact hm x hx
            | exact hi x hx
            | exact hd x hx
      | some u =>
        cases u <;> cases s <;>
          first
            | exact hm x hx
            | exact hi x hx
            | exact hd x hx
            | (rcases List.mem_append.mp hx with h1 | h1
               · first
                   | exact hm x h1
                   | exact hi x h1
                   | exact hd x h1
               · rw [List.mem_singleton] at h1
                 rw [h1]
                 exact hb)
    · simp only [Bool.not_eq_true] at hb
      simp only [hb, Bool.false_eq_true, if_false] at hx
      exact h s x hx

/-- One step of the scan keeps the invariant that the section named by
the cursor holds an actual list. -/
theorem step_cursor_isSome : ∀ (st : ScanSt) (l : List Char),
    (∀ s, st.current_section = some s → (getSec st s).isSome = true) →
    ∀ s, (step st l).current_section = some s →
      (getSec (step st l) s).isSome = true := by
  rintro ⟨c, m, i, d⟩ l h s hs
  cases hh : headingOf l with
  | some u =>
    simp only [step, hh] at hs ⊢
    cases u <;> cases s <;> simp_all [getSec]
  | none =>
    simp only [step, hh] at hs ⊢
    by_cases hb : nonBlank l = true
    · simp only [hb, if_true] at hs ⊢
      cases c with
      | none => simp at hs
      | some u => cases u <;> cases s <;> simp_all [getSec]
    · have hbf : nonBlank l = false := by simpa using hb
      simp only [hbf, Bool.false_eq_true, if_false] at hs ⊢
      exact h s hs

/-- Along the whole scan, whenever the `current_section` cursor names a
section, that section's dict value is a list (never `None`), so the
Python `sections[current_section].append(line)` never dereferences
`None` — and the `getD []` in `step` is only a formal default that never
fires. -/
theorem cursor_getSec_isSome (ls : List (List Char)) :
    ∀ st : ScanSt,
      (∀ s, st.current_section = some s → (getSec st s).isSome = true) →
      ∀ s, (feed st ls).current_section = some s →
        (getSec (feed st ls) s).isSome = true := by
  induction ls with
  | nil => intro st h; exact h
  | cons l t ih =>
    intro st h
    rw [feed_cons]
    exact ih (step st l) (step_cursor_isSome st l h)

/-- Every line stored in a section list is non-blank, for any state all
of whose stored lines are non-blank: blank lines are filtered
everywhere. -/
theorem feed_nonBlank (ls : List (List Char)) :
    ∀ st : ScanSt,
      (∀ s x, x ∈ (getSec st s).getD [] → nonBlank x = true) →
      ∀ s x, x ∈ (getSec (feed st ls) s).getD [] → nonBlank x = true := by
  induction ls with
  | nil => intro st h; exact h
  | cons l t ih =>
    intro st h
    rw [feed_cons]
    exact ih (step st l) (step_nonBlank st l h)

/-- C2: lines before the first recognized heading contribute to no
section (they are dropped from the structured view: the scan result over
`pre ++ rest` equals the scan over `rest` alone when `pre` is
heading-free); blank lines are never appended to any section list; and
the untouched raw response is retained in full in the parse result. -/
theorem claimC2 (pre rest : List (List Char)) (raw : List Char)
    (hpre : ∀ l ∈ pre, headingOf l = none) :
    feed initSt (pre ++ rest) = feed initSt rest
    ∧ (∀ s x, x ∈ (getSec (feed initSt (pre ++ rest)) s).getD [] → nonBlank x = true)
    ∧ (parse raw).raw = raw := by
  refine ⟨?_, ?_, rfl⟩
  · rw [feed_append, feed_initSt_of_no_heading pre hpre]
  · apply feed_nonBlank
    intro s x hx
    cases s <;> exact absurd hx (List.not_mem_nil x)

/-- Witness for C2 at a concrete prefix and response. -/
theorem claimC2_witness :
    feed initSt (["stray prose".toList]
        ++ ["### Missing Sections:".toList, "- Title".toList])
      = feed initSt ["### Missing Sections:".toList, "- Title".toList]
    ∧ (∀ s x, x ∈ (getSec (feed initSt (["stray prose".toList]
        ++ ["### Missing Sections:".toList, "- Title".toList])) s).getD [] →
          nonBlank x = true)
    ∧ (parse "no headings here at all".toList).raw
        = "no headings here at all".toList :=
  claimC2 ["stray prose".toList]
    ["### Missing Sections:".toList, "- Title".toList]
    ("no headings here at all".toList) (by decide)

/-- C3: a repeated heading resets its section to a fresh empty list, so
only the content after the last occurrence of the heading survives: the
section's final list over `pre ++ hl :: post` equals its list when the
scan starts at that occurrence. -/
theorem claimC3 (s : SecName) (pre post : List (List Char)) (hl : List Char)
    (hh : headingOf hl = some s) :
    getSec (feed initSt (pre ++ hl :: post)) s
      = getSec (feed initSt (hl :: post)) s := by
  rw [feed_append, feed_cons, feed_cons]
  have h1 := step_heading (feed initSt pre) hl s hh
  have h2 := step_heading initSt hl s hh
  exact (feed_sec_congr s post _ _ (h1.1.trans h2.1.symm)
    (h1.2.trans h2.2.symm)).2

/-- Witness for C3: a repeated "Improvement Tips" heading keeps only the
content after its last occurrence. -/
theorem claimC3_witness :
    getSec (feed initSt (["### Improvement Tips:".toList, "- old tip".toList]
        ++ "### Improvement Tips:".toList :: ["- new tip".toList])) .it
      = getSec (feed initSt ("### Improvement Tips:".toList
          :: ["- new tip".toList])) .it :=
  claimC3 .it ["### Improvement Tips:".toList, "- old tip".toList]
    ["- new tip".toList] ("### Improvement Tips:".toList) (by decide)

/-- C5: `parse` is total by construction (a Lean function defined by
structural recursion and folds; no failure path exists), and on a
response in which no line carries a recognized heading it returns the
worst-case result: all three named sections absent, only the score search
applied and the raw blob retained. -/
theorem claimC5 (raw : List Char)
    (hno : ∀ l ∈ splitLines raw, headingOf l = none) :
    parse raw = { score := score raw, missingSections := none,
                  improvementTips := none, detailedFeedback := none,
                  raw := raw } := by
  have h := feed_initSt_of_no_heading (splitLines raw) hno
  simp only [parse, sections, h]
  rfl

/-- Witness for C5 at the spec's example `"no headings here at all"`. -/
theorem claimC5_witness :
    parse "no headings here at all".toList
      = { score := score "no headings here at all".toList,
          missingSections := none, improvementTips := none,
          detailedFeedback := none,
          raw := "no headings here at all".toList } :=
  claimC5 ("no headings here at all".toList) (by decide)

/-- C1 counterexample: with all four headings in order and a non-blank
line after each, the "Missing Sections" list does NOT contain exactly the
non-blank lines between its heading line and the next heading line (the
Completeness Score heading line): the scan also appends the score heading
line itself (and anything up to the Improvement Tips heading), because
only the three section headings move the cursor. -/
theorem claimC1_counterexample :
    (parse "### Missing Sections:\n- References\n### Completeness Score: 7/10\n### Improvement Tips:\n- Add refs\n### Detailed Feedback:\nGood work".toList).missingSections
        = some ["- References".toList, "### Completeness Score: 7/10".toList]
      ∧ (parse "### Missing Sections:\n- References\n### Completeness Score: 7/10\n### Improvement Tips:\n- Add refs\n### Detailed Feedback:\nGood work".toList).missingSections
        ≠ some ["- References".toList] := by
  constructor
  · decide
  · decide

/-! ### The PDF extraction branch -/

/-- Input to the PDF branch as handed over by the external `pdfplumber`
library: either the byte stream fails to open as a PDF (with the raised
message), or it opens onto a page sequence where each page's
`extract_text()` call either raises or returns a (possibly empty) text;
current pdfplumber always returns a string, empty for a page with no text
content. -/
inductive PdfStream where
  | invalid (msg : List Char)
  | valid (pages : List (Except (List Char) (List Char)))

/-- The accumulation loop `for page in pdf.pages: lab_text +=
page.extract_text() + "\n"` (app.py lines 403-404); a raising page
propagates its exception to the surrounding handler. -/
def extractPdfLoop :
    List (Except (List Char) (List Char)) → List Char →
      Except (List Char) (List Char)
  | [], acc => .ok acc
  | .ok t :: rest, acc => extractPdfLoop rest (acc ++ t ++ ['\n'])
  | .error e :: _, _ => .error e

/-- Embeds the PDF branch (app.py lines 400-407): open the byte stream
and concatenate the pages' text layers, appending a newline after each
page; any raised exception aborts with an error. -/
def extractPdf : PdfStream → Except (List Char) (List Char)
  | .invalid msg => .error msg
  | .valid pages => extractPdfLoop pages []

/-- C6 counterexample: a valid one-page PDF whose page text is `"A"`
extracts to `"A\n"`, not to the claimed concatenation with N-1 = 0
newline separators (`List.intercalate` of the page texts): the loop
appends a newline after every page, including the last. -/
theorem claimC6_counterexample :
    extractPdf (.valid [Except.ok ['A']]) = .ok ['A', '\n']
      ∧ (['A', '\n'] : List Char) ≠ List.intercalate ['\n'] [['A']] := by
  constructor
  · rfl
  · decide

theorem extractPdfLoop_ok (ts : List (List Char)) :
    ∀ acc, extractPdfLoop (ts.map Except.ok) acc
      = .ok (acc ++ (ts.map (fun t => t ++ ['\n'])).flatten) := by
  induction ts with
  | nil => intro acc; simp [extractPdfLoop]
  | cons t rest ih =>
    intro acc
    simp only [List.map_cons, extractPdfLoop, ih, List.flatten_cons, List.append_assoc]

/-- C6 amended: for every valid PDF byte stream, extraction returns the
page texts concatenated in page order with one newline appended after
each page — N newlines for N pages, including a trailing one, rather
than N-1 separators.  Re-extraction of identical input is identical
because `extractPdf` is a pure function. -/
theorem claimC6_amended (ts : List (List Char)) :
    extractPdf (.valid (ts.map Except.ok))
      = .ok ((ts.map (fun t => t ++ ['\n'])).flatten) := by
  simp [extractPdf, extractPdfLoop_ok]

theorem extractPdfLoop_error_iff (pages : List (Except (List Char) (List Char))) :
    ∀ acc, (∃ e, extractPdfLoop pages acc = .error e)
      ↔ ∃ e, Except.error e ∈ pages := by
  induction pages with
  | nil =>
    intro acc
    simp [extractPdfLoop]
  | cons p rest ih =>
    intro acc
    cases p with
    | ok t => simp [extractPdfLoop, ih]
    | error e => simp [extractPdfLoop]

/-- C7: PDF extraction fails exactly when the byte stream is not a valid
PDF or some page's text-layer extraction itself raises; in particular a
valid page with no text content (empty extracted string) is a valid
empty segment and extraction still succeeds. -/
theorem claimC7 (s : PdfStream) :
    ((∃ e, extractPdf s = Except.error e)
      ↔ ((∃ m, s = .invalid m)
          ∨ ∃ pages, s = .valid pages ∧ ∃ e, Except.error e ∈ pages))
    ∧ (∀ pages, s = .valid pages → (∀ p ∈ pages, ∃ t, p = Except.ok t) →
        ∃ out, extractPdf s = Except.ok out) := by
  constructor
  · cases s with
    | invalid m => simp [extractPdf]
    | valid pages => simp [extractPdf, extractPdfLoop_error_iff]
  · rintro pages rfl hok
    cases h : extractPdf (.valid pages) with
    | ok out => exact ⟨out, rfl⟩
    | error e =>
      exfalso
      have := (extractPdfLoop_error_iff pages []).mp ⟨e, h⟩
      obtain ⟨e2, he2⟩ := this
      obtain ⟨t, ht⟩ := hok _ he2
      cases ht

/-- Witness for C7 at a two-page stream whose first page has no text
content: extraction does not fail. -/
theorem claimC7_witness :
    ((∃ e, extractPdf (.valid [Except.ok [], Except.ok ['A']]) = Except.error e)
      ↔ ((∃ m, (PdfStream.valid [Except.ok [], Except.ok ['A']]) = .invalid m)
          ∨ ∃ pages, (PdfStream.valid [Except.ok [], Except.ok ['A']]) = .valid pages
              ∧ ∃ e, Except.error e ∈ pages))
    ∧ (∀ pages, (PdfStream.valid [Except.ok [], Except.ok ['A']]) = .valid pages →
        (∀ p ∈ pages, ∃ t, p = Except.ok t) →
          ∃ out, extractPdf (.valid [Except.ok [], Except.ok ['A']]) = Except.ok out) :=
  claimC7 (.valid [Except.ok [], Except.ok ['A']])

/-! ### The Lab Report Analyzer action: which AI calls are issued -/

/-- Embeds the analysis prompt f-string `full_prompt` (app.py lines
447-478): fixed rubric text around the embedded report text. -/
def full_prompt (lab_text : List Char) : List Char :=
  "You are a science teacher evaluating a student's lab report. Please provide a comprehensive analysis:\n        Lab Report:\n        ".toList
  ++ lab_text
  ++ "\n        Evaluation Guidelines:\n        1. **Section Check**: Identify which of these sections are present and which are missing:\n            - Title\n            - Objective\n            - Hypothesis\n            - Materials\n            - Procedure\n            - Observations\n            - Results\n            - Conclusion\n            - References\n        \n        2. **Completeness Score**: \n            - Assign a numerical score from 1-10 based on completeness\n            - Justify the score based on missing sections and content quality\n        \n        3. **Improvement Tips**:\n            - For each missing section, explain why it's important\n            - Provide specific suggestions for improvement (e.g., \"Try writing a more detailed observation section by including quantitative data\")\n            - Highlight any sections that need more detail or clarity\n        \n        4. **Structure Response**:\n            - Start with: \"### Missing Sections:\"\n            - Then: \"### Completeness Score: X/10\"\n            - Then: \"### Improvement Tips:\"\n            - Finally: \"### Detailed Feedback:\"\n        \n        Be concise but thorough in your analysis.\n        ".toList

/-- Embeds the follow-up prompt f-string `followup_prompt` (app.py lines
586-593). -/
def followup_prompt (lab_text user_question : List Char) : List Char :=
  "Lab Report:\n                ".toList
  ++ lab_text
  ++ "\n                \n                Question: ".toList
  ++ user_question
  ++ "\n                \n                Answer the question based on the lab report. If the question can't be answered from the report, \n                suggest what information the student should add to answer it.\n                ".toList

/-- Embeds the control flow of the Lab Report Analyzer section (app.py
lines 445-598): the list of AI-analysis calls one user action issues.
The whole analysis and question-answering block sits under
`if lab_text.strip():`; within it, the analyze button triggers one
`query_ai(full_prompt)` call (lines 480-482) and a non-blank question
with the ask button (or a just-entered question) triggers one
`query_ai(followup_prompt)` call (lines 584-594). -/
def analyzerAICalls (lab_text : List Char) (analyze_clicked : Bool)
    (user_question : List Char) (ask_button : Bool) : List (List Char) :=
  if (pyStrip lab_text).isEmpty then []
  else
    (if analyze_clicked then [full_prompt lab_text] else [])
    ++ (if (ask_button || !user_question.isEmpty)
            && !(pyStrip user_question).isEmpty
        then [followup_prompt lab_text user_question] else [])

/-- C8: for empty or whitespace-only extracted text, the analyzer action
builds no analysis prompt and issues no AI call at all, whatever buttons
are pressed. -/
theorem claimC8 (lab_text user_question : List Char)
    (analyze_clicked ask_button : Bool)
    (h : (pyStrip lab_text).isEmpty = true) :
    analyzerAICalls lab_text analyze_clicked user_question ask_button = [] := by
  simp [analyzerAICalls, h]

/-- Witness for C8: whitespace-only extracted text with both buttons
pressed issues no AI call. -/
theorem claimC8_witness :
    analyzerAICalls "   ".toList true "How can I improve?".toList true = [] :=
  claimC8 ("   ".toList) ("How can I improve?".toList) true true (by decide)

/-! ### The AI client -/

/-- The outcome of the single `requests.post` call as seen by the code:
either the request itself raises (timeout, connection failure), or an
HTTP response arrives with a status and — if the body has the expected
`choices[0].message.content` shape — a completion text. -/
inductive HttpOutcome where
  | exc (msg : List Char)
  | resp (status : Nat) (content : Option (List Char))

/-- The distinct user-visible error classes of `query_ai`: the dedicated
invalid-API-key message for 401, the `API Error: <status>` message for
other HTTP errors, and the generic connection/parsing failure message. -/
inductive ErrShown where
  | invalidApiKey
  | apiError (status : Nat)
  | connectionError
deriving DecidableEq

/-- Result of one `query_ai` invocation: the returned completion (or
`None`), the error message class shown (if any), and how many outbound
requests were made. -/
structure QueryResult where
  returned : Option (List Char)
  errorShown : Option ErrShown
  requests : Nat
deriving DecidableEq

/-- Embeds `query_ai` (app.py lines 172-209): exactly one
`requests.post`; a 401 status is checked first and yields the dedicated
invalid-key error with `None` returned; other 4xx/5xx statuses raise in
`raise_for_status` and yield the API-error message; a missing completion
field or a transport exception yields the generic error; otherwise the
completion text is returned.  There is no retry loop: the endpoint is
consulted exactly once, at call index 0. -/
def query_ai (endpoint : Nat → HttpOutcome) : QueryResult :=
  match endpoint 0 with
  | .exc _ => ⟨none, some .connectionError, 1⟩
  | .resp status content =>
    if status = 401 then ⟨none, some .invalidApiKey, 1⟩
    else if 400 ≤ status ∧ status < 600 then ⟨none, some (.apiError status), 1⟩
    else
      match content with
      | some t => ⟨some t, none, 1⟩
      | none => ⟨none, some .connectionError, 1⟩

/-- C9: whenever the endpoint answers 401, the client returns no
completion text, shows the authentication-specific error, and has made
exactly one outbound request — no automatic retry. -/
theorem claimC9 (endpoint : Nat → HttpOutcome) (content : Option (List Char))
    (h : endpoint 0 = .resp 401 content) :
    query_ai endpoint
      = { returned := none, errorShown := some .invalidApiKey, requests := 1 } := by
  simp [query_ai, h]

/-- Witness for C9 at a concrete always-401 endpoint. -/
theorem claimC9_witness :
    query_ai (fun _ => HttpOutcome.resp 401 none)
      = { returned := none, errorShown := some .invalidApiKey, requests := 1 } :=
  claimC9 (fun _ => HttpOutcome.resp 401 none) none rfl

/-! ### Splitting and joining lines -/

theorem splitLines_of_no_newline (l : List Char) (h : '\n' ∉ l) :
    splitLines l = [l] := by
  induction l with
  | nil => rfl
  | cons c t ih =>
    have hc : ¬(c = '\n') := fun e => h (e ▸ List.mem_cons_self c t)
    have ht : '\n' ∉ t := fun m => h (List.mem_cons_of_mem c m)
    simp [splitLines, hc, ih ht]

theorem splitLines_append_newline (l rest : List Char) (h : '\n' ∉ l) :
    splitLines (l ++ '\n' :: rest) = l :: splitLines rest := by
  induction l with
  | nil => simp [splitLines]
  | cons c t ih =>
    have hc : ¬(c = '\n') := fun e => h (e ▸ List.mem_cons_self c t)
    have ht : '\n' ∉ t := fun m => h (List.mem_cons_of_mem c m)
    simp [splitLines, hc, ih ht]

theorem joinLines_cons_of_ne (l : List Char) (t : List (List Char))
    (h : t ≠ []) : joinLines (l :: t) = l ++ '\n' :: joinLines t := by
  cases t with
  | nil => cases h rfl
  | cons l2 t2 => rfl

theorem splitLines_joinLines (ls : List (List Char)) (hne : ls ≠ [])
    (h : ∀ l ∈ ls, '\n' ∉ l) :
    splitLines (joinLines ls) = ls := by
  induction ls with
  | nil => cases hne rfl
  | cons l t ih =>
    cases t with
    | nil => exact splitLines_of_no_newline l (h l (by simp))
    | cons l2 t2 =>
      rw [joinLines_cons_of_ne l (l2 :: t2) (by simp)]
      rw [splitLines_append_newline l _ (h l (by simp))]
      rw [ih (by simp) (fun x hx => h x (by simp [hx]))]

theorem joinLines_append (xs ys : List (List Char)) (hx : xs ≠ [])
    (hy : ys ≠ []) :
    joinLines (xs ++ ys) = joinLines xs ++ '\n' :: joinLines ys := by
  induction xs with
  | nil => cases hx rfl
  | cons l t ih =>
    cases t with
    | nil =>
      cases ys with
      | nil => cases hy rfl
      | cons y yt => simp [joinLines]
    | cons l2 t2 =>
      rw [List.cons_append,
          joinLines_cons_of_ne l ((l2 :: t2) ++ ys) (by simp),
          joinLines_cons_of_ne l (l2 :: t2) (by simp),
          ih (by simp)]
      simp

theorem joinLines_map (f : Char → Char) (hf : f '\n' = '\n') :
    ∀ ls : List (List Char),
      (joinLines ls).map f = joinLines (ls.map (List.map f))
  | [] => rfl
  | [l] => rfl
  | l :: l2 :: t => by
    rw [joinLines_cons_of_ne l (l2 :: t) (by simp), List.map_append,
        List.map_cons, hf, joinLines_map f hf (l2 :: t)]
    rfl

/-! ### Substring occurrence facts for the score search -/

theorem isPrefixOf_nil_right (p : List Char) :
    p.isPrefixOf ([] : List Char) = p.isEmpty := by
  cases p <;> rfl

theorem containsSub_iff (p w : List Char) :
    containsSub p w = true ↔ ∃ i, p.isPrefixOf (w.drop i) = true := by
  induction w with
  | nil =>
    simp only [containsSub, List.drop_nil, isPrefixOf_nil_right]
    exact ⟨fun h => ⟨0, h⟩, fun ⟨_, h⟩ => h⟩
  | cons c t ih =>
    simp only [containsSub, Bool.or_eq_true, ih]
    constructor
    · rintro (h | ⟨i, hi⟩)
      · exact ⟨0, by simpa using h⟩
      · exact ⟨i + 1, by simpa using hi⟩
    · rintro ⟨i, hi⟩
      cases i with
      | zero => exact Or.inl (by simpa using hi)
      | succ j => exact Or.inr ⟨j, by simpa using hi⟩

/-- A newline-free pattern that matches starting inside `u` in
`u ++ '\n' :: v` must lie entirely within `u`. -/
theorem isPrefixOf_append_newline (p : List Char) (hn : '\n' ∉ p)
    (u v : List Char) (i : Nat) (hi : i < u.length)
    (hp : p.isPrefixOf ((u ++ '\n' :: v).drop i) = true) :
    containsSub p u = true := by
  have hdrop : (u ++ '\n' :: v).drop i = u.drop i ++ '\n' :: v := by
    rw [List.drop_append_eq_append_drop]
    have h0 : i - u.length = 0 := by omega
    rw [h0, List.drop_zero]
  rw [hdrop] at hp
  have hpre : p <+: u.drop i ++ '\n' :: v := List.isPrefixOf_iff_prefix.mp hp
  have hlenw : (u.drop i).length = u.length - i := List.length_drop i u
  by_cases hlen : p.length ≤ (u.drop i).length
  · have hpw : p <+: u.drop i := by
      have h1 : p = (u.drop i ++ '\n' :: v).take p.length :=
        List.prefix_iff_eq_take.mp hpre
      rw [List.take_append_eq_append_take] at h1
      have h2 : p.length - (u.drop i).length = 0 := by omega
      rw [h2] at h1
      simp only [List.take_zero, List.append_nil] at h1
      rw [h1]
      exact List.take_prefix _ _
    exact (containsSub_iff p u).mpr ⟨i, List.isPrefixOf_iff_prefix.mpr hpw⟩
  · exfalso
    push_neg at hlen
    have h1 : p = (u.drop i ++ '\n' :: v).take p.length :=
      List.prefix_iff_eq_take.mp hpre
    rw [List.take_append_eq_append_take] at h1
    have h2 : (u.drop i).take p.length = u.drop i :=
      List.take_of_length_le (by omega)
    rw [h2] at h1
    obtain ⟨k, hk⟩ : ∃ k, p.length - (u.drop i).length = k + 1 :=
      ⟨p.length - (u.drop i).length - 1, by omega⟩
    rw [hk, List.take_succ_cons] at h1
    exact hn (h1 ▸ List.mem_append_right _ (List.mem_cons_self _ _))

/-- A nonempty newline-free pattern occurring nowhere in any line does
not occur in the joined text either. -/
theorem containsSub_joinLines_false (p : List Char) (hn : '\n' ∉ p)
    (hne : p ≠ []) :
    ∀ ls : List (List Char), (∀ l ∈ ls, containsSub p l = false) →
      containsSub p (joinLines ls) = false
  | [] => by
    intro _
    cases p with
    | nil => cases hne rfl
    | cons c t => rfl
  | [l] => fun h => h l (by simp)
  | l :: l2 :: t2 => by
    intro h
    rw [joinLines_cons_of_ne l (l2 :: t2) (by simp)]
    by_contra hcon
    have hc : containsSub p (l ++ '\n' :: joinLines (l2 :: t2)) = true :=
      Bool.not_eq_false _ |>.mp hcon
    obtain ⟨i, hi⟩ := (containsSub_iff _ _).mp hc
    by_cases hlt : i < l.length
    · have := isPrefixOf_append_newline p hn l (joinLines (l2 :: t2)) i hlt hi
      rw [h l (by simp)] at this
      cases this
    · push_neg at hlt
      rw [List.drop_append_eq_append_drop,
          List.drop_eq_nil_of_le (by simpa using hlt), List.nil_append] at hi
      cases hij : i - l.length with
      | zero =>
        rw [hij] at hi
        cases p with
        | nil => cases hne rfl
        | cons c q =>
          have hcq : ¬(c = '\n') := fun e => hn (e ▸ List.mem_cons_self c q)
          simp only [List.drop_zero, List.isPrefixOf, Bool.and_eq_true,
            beq_iff_eq] at hi
          exact hcq hi.1
      | succ j =>
        rw [hij, List.drop_succ_cons] at hi
        have hrec :=
          containsSub_joinLines_false p hn hne (l2 :: t2)
            (fun x hx => h x (by simp [hx]))
        rw [(containsSub_iff _ _).mpr ⟨j, hi⟩] at hrec
        cases hrec

/-! ### Skipping non-matching positions in the leftmost-match scan -/

theorem tryMatch_none_of_not_lit (s : List Char)
    (h : lit.isPrefixOf s = false) : tryMatch s = none := by
  simp [tryMatch, h]

theorem go_append_of_nomatch :
    ∀ xs ys : List Char,
      (∀ i, i < xs.length → tryMatch ((xs ++ ys).drop i) = none) →
      go (xs ++ ys) = go ys
  | [], ys => fun _ => rfl
  | c :: t, ys => by
    intro h
    have h0 := h 0 (by simp)
    rw [List.drop_zero, List.cons_append] at h0
    rw [List.cons_append,
        show go (c :: (t ++ ys))
          = match tryMatch (c :: (t ++ ys)) with
            | some n => some n
            | none => go (t ++ ys) from rfl,
        h0]
    exact go_append_of_nomatch t ys (fun i hi => by
      have := h (i + 1) (by simpa using Nat.succ_lt_succ hi)
      rwa [List.cons_append, List.drop_succ_cons] at this)

/-- The score pattern matches with value 7 at the head of the lowered
Completeness Score heading line, whatever follows the line. -/
theorem go_cs (z : List Char) :
    go ("### completeness score: 7/10".toList ++ '\n' :: z) = some 7 := rfl

/-! ### Running the scan over heading-free blocks -/

theorem feed_push_ms :
    ∀ (ls : List (List Char)) (m : List (List Char))
      (i d : Option (List (List Char))),
      (∀ l ∈ ls, headingOf l = none) →
      feed ⟨some .ms, some m, i, d⟩ ls
        = ⟨some .ms, some (m ++ ls.filter nonBlank), i, d⟩ := by
  intro ls
  induction ls with
  | nil => intro m i d _; simp [feed]
  | cons l t ih =>
    intro m i d h
    have hl : headingOf l = none := h l (by simp)
    rw [feed_cons]
    by_cases hb : nonBlank l = true
    · have hst : step ⟨some .ms, some m, i, d⟩ l
          = ⟨some .ms, some (m ++ [l]), i, d⟩ := by
        simp [step, hl, hb]
      rw [hst, ih (m ++ [l]) i d (fun x hx => h x (by simp [hx]))]
      simp [List.filter_cons, hb]
    · have hbf : nonBlank l = false := by simpa using hb
      have hst : step ⟨some .ms, some m, i, d⟩ l = ⟨some .ms, some m, i, d⟩ := by
        simp [step, hl, hbf]
      rw [hst, ih m i d (fun x hx => h x (by simp [hx]))]
      simp [List.filter_cons, hbf]

theorem feed_push_it :
    ∀ (ls : List (List Char)) (v : List (List Char))
      (m d : Option (List (List Char))),
      (∀ l ∈ ls, headingOf l = none) →
      feed ⟨some .it, m, some v, d⟩ ls
        = ⟨some .it, m, some (v ++ ls.filter nonBlank), d⟩ := by
  intro ls
  induction ls with
  | nil => intro v m d _; simp [feed]
  | cons l t ih =>
    intro v m d h
    have hl : headingOf l = none := h l (by simp)
    rw [feed_cons]
    by_cases hb : nonBlank l = true
    · have hst : step ⟨some .it, m, some v, d⟩ l
          = ⟨some .it, m, some (v ++ [l]), d⟩ := by
        simp [step, hl, hb]
      rw [hst, ih (v ++ [l]) m d (fun x hx => h x (by simp [hx]))]
      simp [List.filter_cons, hb]
    · have hbf : nonBlank l = false := by simpa using hb
      have hst : step ⟨some .it, m, some v, d⟩ l = ⟨some .it, m, some v, d⟩ := by
        simp [step, hl, hbf]
      rw [hst, ih v m d (fun x hx => h x (by simp [hx]))]
      simp [List.filter_cons, hbf]

theorem feed_push_df :
    ∀ (ls : List (List Char)) (v : List (List Char))
      (m i : Option (List (List Char))),
      (∀ l ∈ ls, headingOf l = none) →
      feed ⟨some .df, m, i, some v⟩ ls
        = ⟨some .df, m, i, some (v ++ ls.filter nonBlank)⟩ := by
  intro ls
  induction ls with
  | nil => intro v m i _; simp [feed]
  | cons l t ih =>
    intro v m i h
    have hl : headingOf l = none := h l (by simp)
    rw [feed_cons]
    by_cases hb : nonBlank l = true
    · have hst : step ⟨some .df, m, i, some v⟩ l
          = ⟨some .df, m, i, some (v ++ [l])⟩ := by
        simp [step, hl, hb]
      rw [hst, ih (v ++ [l]) m i (fun x hx => h x (by simp [hx]))]
      simp [List.filter_cons, hb]
    · have hbf : nonBlank l = false := by simpa using hb
      have hst : step ⟨some .df, m, i, some v⟩ l = ⟨some .df, m, i, some v⟩ := by
        simp [step, hl, hbf]
      rw [hst, ih v m i (fun x hx => h x (by simp [hx]))]
      simp [List.filter_cons, hbf]

/-! ### The amended C1 development -/

/-- The Completeness Score heading line the analysis prompt requests,
with score value 7. -/
def csLine : List Char := "### Completeness Score: 7/10".toList

theorem score_c1_aux (a b c d : List (List Char))
    (hscore : ∀ l ∈ a, containsSub lit (l.map Char.toLower) = false) :
    score (joinLines (msHead :: a ++ csLine :: b ++ itHead :: c ++ dfHead :: d))
      = some 7 := by
  rw [score, joinLines_map Char.toLower (by decide)]
  have hmap :
      (msHead :: a ++ csLine :: b ++ itHead :: c ++ dfHead :: d).map
          (List.map Char.toLower)
        = (msHead.map Char.toLower :: a.map (List.map Char.toLower))
          ++ (csLine.map Char.toLower
            :: (b.map (List.map Char.toLower)
              ++ itHead.map Char.toLower
                :: (c.map (List.map Char.toLower)
                  ++ dfHead.map Char.toLower
                    :: d.map (List.map Char.toLower)))) := by
    simp
  rw [hmap, joinLines_append _ _ (by simp) (by simp)]
  have hnolit :
      containsSub lit
          (joinLines (msHead.map Char.toLower :: a.map (List.map Char.toLower)))
        = false := by
    apply containsSub_joinLines_false lit (by decide) (by decide)
    intro l hl
    rcases List.mem_cons.mp hl with rfl | hl2
    · decide
    · obtain ⟨x, hx, rfl⟩ := List.mem_map.mp hl2
      exact hscore x hx
  have hnom :
      go (joinLines (msHead.map Char.toLower :: a.map (List.map Char.toLower))
          ++ '\n' :: joinLines (csLine.map Char.toLower
            :: (b.map (List.map Char.toLower)
              ++ itHead.map Char.toLower
                :: (c.map (List.map Char.toLower)
                  ++ dfHead.map Char.toLower :: d.map (List.map Char.toLower)))))
        = go (joinLines (csLine.map Char.toLower
            :: (b.map (List.map Char.toLower)
              ++ itHead.map Char.toLower
                :: (c.map (List.map Char.toLower)
                  ++ dfHead.map Char.toLower :: d.map (List.map Char.toLower))))) := by
    rw [show
        joinLines (msHead.map Char.toLower :: a.map (List.map Char.toLower))
            ++ '\n' :: joinLines (csLine.map Char.toLower
              :: (b.map (List.map Char.toLower)
                ++ itHead.map Char.toLower
                  :: (c.map (List.map Char.toLower)
                    ++ dfHead.map Char.toLower :: d.map (List.map Char.toLower))))
          = (joinLines (msHead.map Char.toLower :: a.map (List.map Char.toLower))
              ++ ['\n'])
            ++ joinLines (csLine.map Char.toLower
              :: (b.map (List.map Char.toLower)
                ++ itHead.map Char.toLower
                  :: (c.map (List.map Char.toLower)
                    ++ dfHead.map Char.toLower :: d.map (List.map Char.toLower))))
        from by simp]
    apply go_append_of_nomatch
    intro i hi
    rw [List.length_append] at hi
    apply tryMatch_none_of_not_lit
    by_contra hcon
    have hp := Bool.not_eq_false _ |>.mp hcon
    rw [show
        (joinLines (msHead.map Char.toLower :: a.map (List.map Char.toLower))
            ++ ['\n'])
          ++ joinLines (csLine.map Char.toLower
            :: (b.map (List.map Char.toLower)
              ++ itHead.map Char.toLower
                :: (c.map (List.map Char.toLower)
                  ++ dfHead.map Char.toLower :: d.map (List.map Char.toLower))))
          = joinLines (msHead.map Char.toLower :: a.map (List.map Char.toLower))
            ++ '\n' :: joinLines (csLine.map Char.toLower
              :: (b.map (List.map Char.toLower)
                ++ itHead.map Char.toLower
                  :: (c.map (List.map Char.toLower)
                    ++ dfHead.map Char.toLower :: d.map (List.map Char.toLower))))
        from by simp] at hp
    by_cases hlt :
        i < (joinLines (msHead.map Char.toLower
          :: a.map (List.map Char.toLower))).length
    · have habs := isPrefixOf_append_newline lit (by decide) _ _ i hlt hp
      rw [hnolit] at habs
      cases habs
    · have hieq :
          i = (joinLines (msHead.map Char.toLower
            :: a.map (List.map Char.toLower))).length := by
        simp only [List.length_singleton] at hi
        omega
      rw [hieq, List.drop_left] at hp
      have hfalse : lit.isPrefixOf
          ('\n' :: joinLines (csLine.map Char.toLower
            :: (b.map (List.map Char.toLower)
              ++ itHead.map Char.toLower
                :: (c.map (List.map Char.toLower)
                  ++ dfHead.map Char.toLower :: d.map (List.map Char.toLower)))))
          = false := rfl
      rw [hfalse] at hp
      cases hp
  rw [hnom, joinLines_cons_of_ne _ _ (by simp),
      show csLine.map Char.toLower = "### completeness score: 7/10".toList
        from by decide]
  exact go_cs _

theorem sections_c1_aux (a b c d : List (List Char))
    (hha : ∀ l ∈ a, headingOf l = none) (hhb : ∀ l ∈ b, headingOf l = none)
    (hhc : ∀ l ∈ c, headingOf l = none) (hhd : ∀ l ∈ d, headingOf l = none) :
    feed initSt (msHead :: a ++ csLine :: b ++ itHead :: c ++ dfHead :: d)
      = ⟨some .df,
          some (a.filter nonBlank ++ csLine :: b.filter nonBlank),
          some (c.filter nonBlank),
          some (d.filter nonBlank)⟩ := by
  rw [show msHead :: a ++ csLine :: b ++ itHead :: c ++ dfHead :: d
      = msHead :: ((a ++ csLine :: b) ++ (itHead :: (c ++ dfHead :: d)))
      from by simp]
  rw [feed_cons, show step initSt msHead = ⟨some .ms, some [], none, none⟩
      from by decide]
  rw [feed_append]
  rw [feed_push_ms (a ++ csLine :: b) [] none none (by
    intro l hl
    rcases List.mem_append.mp hl with hl2 | hl2
    · exact hha l hl2
    · rcases List.mem_cons.mp hl2 with rfl | hl3
      · decide
      · exact hhb l hl3)]
  rw [feed_cons, show
      step ⟨some .ms, some ([] ++ (a ++ csLine :: b).filter nonBlank), none, none⟩
          itHead
        = ⟨some .it, some ([] ++ (a ++ csLine :: b).filter nonBlank),
            some [], none⟩
      from by simp [step, show headingOf itHead = some SecName.it from by decide]]
  rw [feed_append]
  rw [feed_push_it c [] (some ([] ++ (a ++ csLine :: b).filter nonBlank)) none hhc]
  rw [feed_cons, show
      step ⟨some .it, some ([] ++ (a ++ csLine :: b).filter nonBlank),
          some ([] ++ c.filter nonBlank), none⟩ dfHead
        = ⟨some .df, some ([] ++ (a ++ csLine :: b).filter nonBlank),
            some ([] ++ c.filter nonBlank), some []⟩
      from by simp [step, show headingOf dfHead = some SecName.df from by decide]]
  rw [feed_push_df d []
      (some ([] ++ (a ++ csLine :: b).filter nonBlank))
      (some ([] ++ c.filter nonBlank)) hhd]
  simp [List.filter_append, List.filter_cons,
    show nonBlank csLine = true from by decide]

/-- C1 amended: for a response consisting of the four requested headings
in order, with arbitrary newline-free, heading-free filler lines after
each (those before the score heading also free of the score literal so
the first regex match is the score heading), `parse` yields score 7 and
three non-empty section lists; "Improvement Tips" and "Detailed
Feedback" contain exactly the non-blank lines between their heading and
the next heading, while "Missing Sections" contains the non-blank lines
between its heading and the next RECOGNIZED section heading — which
includes the `### Completeness Score: 7/10` heading line itself, since
that line does not move the cursor. -/
theorem claimC1_amended (a b c d : List (List Char))
    (hnl : ∀ l, l ∈ a ++ b ++ c ++ d → '\n' ∉ l)
    (hhead : ∀ l, l ∈ a ++ b ++ c ++ d → headingOf l = none)
    (hscore : ∀ l ∈ a, containsSub lit (l.map Char.toLower) = false)
    (hcne : c.filter nonBlank ≠ []) (hdne : d.filter nonBlank ≠ []) :
    parse (joinLines (msHead :: a ++ csLine :: b ++ itHead :: c ++ dfHead :: d))
      = { score := some 7,
          missingSections :=
            some (a.filter nonBlank ++ csLine :: b.filter nonBlank),
          improvementTips := some (c.filter nonBlank),
          detailedFeedback := some (d.filter nonBlank),
          raw := joinLines
            (msHead :: a ++ csLine :: b ++ itHead :: c ++ dfHead :: d) }
      ∧ a.filter nonBlank ++ csLine :: b.filter nonBlank ≠ []
      ∧ c.filter nonBlank ≠ [] ∧ d.filter nonBlank ≠ [] := by
  have hha : ∀ l ∈ a, headingOf l = none := fun l hl => hhead l (by simp [hl])
  have hhb : ∀ l ∈ b, headingOf l = none := fun l hl => hhead l (by simp [hl])
  have hhc : ∀ l ∈ c, headingOf l = none := fun l hl => hhead l (by simp [hl])
  have hhd : ∀ l ∈ d, headingOf l = none := fun l hl => hhead l (by simp [hl])
  have hLnl : ∀ l ∈ msHead :: a ++ csLine :: b ++ itHead :: c ++ dfHead :: d,
      '\n' ∉ l := by
    intro l hl
    have hl2 : l = msHead ∨ l = csLine ∨ l = itHead ∨ l = dfHead
        ∨ l ∈ a ++ b ++ c ++ d := by
      simp only [List.mem_append, List.mem_cons] at hl ⊢
      tauto
    rcases hl2 with rfl | rfl | rfl | rfl | h
    · decide
    · decide
    · decide
    · decide
    · exact hnl l h
  have hsplit : splitLines
      (joinLines (msHead :: a ++ csLine :: b ++ itHead :: c ++ dfHead :: d))
        = msHead :: a ++ csLine :: b ++ itHead :: c ++ dfHead :: d :=
    splitLines_joinLines _ (by simp) hLnl
  refine ⟨?_, by simp, hcne, hdne⟩
  have hfeed := sections_c1_aux a b c d hha hhb hhc hhd
  have hsc := score_c1_aux a b c d hscore
  simp only [parse, sections, hsplit, hfeed, hsc]

/-- Witness for the amended C1 at a concrete four-heading response. -/
theorem claimC1_amended_witness :
    parse (joinLines (msHead :: ["- References".toList]
        ++ csLine :: ([] : List (List Char))
        ++ itHead :: ["- Add refs".toList]
        ++ dfHead :: ["Good work".toList]))
      = { score := some 7,
          missingSections := some (["- References".toList].filter nonBlank
            ++ csLine :: ([] : List (List Char)).filter nonBlank),
          improvementTips := some (["- Add refs".toList].filter nonBlank),
          detailedFeedback := some (["Good work".toList].filter nonBlank),
          raw := joinLines (msHead :: ["- References".toList]
            ++ csLine :: ([] : List (List Char))
            ++ itHead :: ["- Add refs".toList]
            ++ dfHead :: ["Good work".toList]) }
      ∧ ["- References".toList].filter nonBlank
          ++ csLine :: ([] : List (List Char)).filter nonBlank ≠ []
      ∧ ["- Add refs".toList].filter nonBlank ≠ []
      ∧ ["Good work".toList].filter nonBlank ≠ [] :=
  claimC1_amended ["- References".toList] [] ["- Add refs".toList]
    ["Good work".toList] (by decide) (by decide) (by decide) (by decide)
    (by decide)

end SLA
